/-
Verification of the GameStop social-network analysis pipeline.

Shallow embedding of the core modules:
  * `src/game_theory/tit_for_tat.py`  (cascade simulation)
  * `src/network/bipartite.py`        (bipartite graph and matrix projection)
  * `src/analysis/network_value.py`   (network value laws)

Python integers are modelled by `Nat`/`Int`; the `float` division used for
the cooperation ratio is modelled by the exact rational quotient (`ℚ`); the
`np.int8` matrix arithmetic of the projector is modelled by explicit
wrap-around on `Int`. Randomness (`np.random.*`) is modelled by universally
quantified draw parameters constrained exactly as the corresponding call
constrains them (sample length, pool membership, replacement mode).
-/

import Mathlib

namespace GameStop

/-! ## Configuration constants (`src/utils/config.py`)

`INFLUENCER_WEIGHT_MULTIPLIER = 3`, `COOPERATION_THRESHOLD = 0.5`,
`STICKY_THRESHOLD = 0.4`.  The thresholds are written with `mkRat` so that
they evaluate inside the kernel; the lemmas below restate them as the
familiar fractions. -/

def INFLUENCER_WEIGHT_MULTIPLIER : Nat := 3

def COOPERATION_THRESHOLD : ℚ := mkRat 1 2

def STICKY_THRESHOLD : ℚ := mkRat 2 5

theorem COOPERATION_THRESHOLD_eq : COOPERATION_THRESHOLD = 1/2 := by
  rw [COOPERATION_THRESHOLD, Rat.mkRat_eq_div]; norm_num

theorem STICKY_THRESHOLD_eq : STICKY_THRESHOLD = 2/5 := by
  rw [STICKY_THRESHOLD, Rat.mkRat_eq_div]; norm_num

/-! ## Directed interaction graph

`nx.DiGraph` restricted to what the cascade simulator reads: the node list
and the directed edge list (at most one edge per ordered pair in networkx;
none of the statements below depends on that). -/

structure DiGraph (V : Type) where
  nodes : List V
  edges : List (V × V)

variable {V : Type} [DecidableEq V]

/-- `G.predecessors(node)`: sources of edges into `node`. -/
def predecessors (G : DiGraph V) (v : V) : List V :=
  (G.edges.filter (fun e => e.2 = v)).map (fun e => e.1)

/-- `G.successors(node)`: targets of edges out of `node`. -/
def successors (G : DiGraph V) (v : V) : List V :=
  (G.edges.filter (fun e => e.1 = v)).map (fun e => e.2)

/-- `neighbors = list(G.predecessors(node)) + list(G.successors(node))` —
the concatenation of the two lists (a node that is both a predecessor and a
successor appears twice). -/
def neighborList (G : DiGraph V) (v : V) : List V :=
  predecessors G v ++ successors G v

/-- Weight of one neighbor in the influence sums:
`INFLUENCER_WEIGHT_MULTIPLIER if n in key_figures else 1`
(a Python `int`). -/
def neighborWeight (key_figures : List V) (n : V) : Nat :=
  if n ∈ key_figures then INFLUENCER_WEIGHT_MULTIPLIER else 1

/-- `influence_weight`: weighted sum over cooperating neighbors. -/
def influence_weight (cooperators key_figures neighbors : List V) : Nat :=
  ((neighbors.filter (fun n => n ∈ cooperators)).map
    (neighborWeight key_figures)).sum

/-- `total_influence`: weighted sum over all neighbors. -/
def total_influence (key_figures neighbors : List V) : Nat :=
  (neighbors.map (neighborWeight key_figures)).sum

/-- `cooperation_ratio = influence_weight / total_influence if
total_influence > 0 else 0`, the float quotient taken exactly
(`mkRat a b = a / b` for `b ≠ 0`, see `cooperation_ratio_eq_div`). -/
def cooperation_ratio (cooperators key_figures neighbors : List V) : ℚ :=
  if 0 < total_influence key_figures neighbors then
    mkRat (influence_weight cooperators key_figures neighbors)
      (total_influence key_figures neighbors)
  else 0

theorem cooperation_ratio_eq_div (cooperators key_figures neighbors : List V)
    (h : 0 < total_influence key_figures neighbors) :
    cooperation_ratio cooperators key_figures neighbors =
      (influence_weight cooperators key_figures neighbors : ℚ) /
        (total_influence key_figures neighbors : ℚ) := by
  rw [cooperation_ratio, if_pos h, Rat.mkRat_eq_div]
  norm_num

/-- The body of the node loop in `_update_cooperators`: does `node` end up
in `new_cooperators`? Mirrors the `if`/`elif` chain of
`tit_for_tat.py` lines 121–153. -/
def coopDecision (G : DiGraph V) (cooperators key_figures : List V)
    (node : V) : Bool :=
  if (neighborList G node).isEmpty then
    -- isolated node: maintain previous state
    decide (node ∈ cooperators)
  else if COOPERATION_THRESHOLD <
      cooperation_ratio cooperators key_figures (neighborList G node) then
    true
  else if node ∈ key_figures then true
  else if STICKY_THRESHOLD <
        cooperation_ratio cooperators key_figures (neighborList G node) ∧
      node ∈ cooperators then
    true
  else false

/-- `_update_cooperators(G, cooperators, key_figures)`: one synchronous
round; the new cooperator set, as the sublist of `G.nodes` whose decision
is positive (membership is what matters — the Python code builds a set). -/
def update_cooperators (G : DiGraph V) (cooperators key_figures : List V) :
    List V :=
  G.nodes.filter (coopDecision G cooperators key_figures)

/-- The cooperator set after `t` rounds of `simulate_tft_dynamics`:
round 0 is the initial state `set(key_figures) ∪ early_adopters`, where
`early_adopters` stands for the `np.random.choice` draw of lines 64–69. -/
def cooperatorsAt (G : DiGraph V) (key_figures early_adopters : List V) :
    Nat → List V
  | 0 => key_figures ++ early_adopters
  | t + 1 => update_cooperators G (cooperatorsAt G key_figures early_adopters t)
      key_figures

/-! ## `identify_tipping_point` (`tit_for_tat.py` lines 158–178) -/

/-- Auxiliary loop: scan `cooperation_history` from index `i`. -/
def tippingFrom : Nat → List ℚ → Int
  | _, [] => -1
  | i, rate :: rest =>
      if mkRat 1 2 < rate then (i : Int) + 1 else tippingFrom (i + 1) rest

/-- `identify_tipping_point(cooperation_history)`: first 1-based index whose
rate strictly exceeds `0.5`, else `-1`. -/
def identify_tipping_point (cooperation_history : List ℚ) : Int :=
  tippingFrom 0 cooperation_history

/-! ## Spec-side formulation of the per-round update rule

The specification describes a node's neighborhood as the *union* of its
predecessors and successors.  The following definitions follow the spec's
words (deduplicated neighborhood); they exist to be compared with the
source-side `coopDecision`, which works on the concatenated list. -/

/-- The spec's neighborhood: union (no multiplicity) of predecessors and
successors. -/
def neighborUnion (G : DiGraph V) (v : V) : List V :=
  (predecessors G v ++ successors G v).dedup

/-- The spec's decision policy for a node with non-empty neighborhood,
with the cooperation ratio taken over the *union* of predecessors and
successors: (1) cooperate if ratio > 0.5; (2) else cooperate if hub;
(3) else cooperate if ratio > 0.4 and previously cooperating;
(4) else defect. -/
def coopDecisionSpec (G : DiGraph V) (cooperators key_figures : List V)
    (node : V) : Bool :=
  if COOPERATION_THRESHOLD <
      cooperation_ratio cooperators key_figures (neighborUnion G node) then
    true
  else if node ∈ key_figures then true
  else if STICKY_THRESHOLD <
        cooperation_ratio cooperators key_figures (neighborUnion G node) ∧
      node ∈ cooperators then
    true
  else false

/-! ## Bipartite content graph (`src/network/bipartite.py` lines 16–98)

`create_bipartite_graph` adds, for each user, edges to a random sample of
viral posts (`np.random.choice(viral_posts, size=min(n_viral,
len(viral_posts)), replace=True)`) and to a random sample of regular posts
(`np.random.choice(regular_posts, size=min(n_regular, len(regular_posts)),
replace=False)`), skipping edges that already exist.  One user's edges are
independent of every other user's, so the model is per-user: the two draws
are parameters constrained exactly as `np.random.choice` constrains them. -/

/-- `n_viral = int(n_comments * VIRAL_POST_RATIO)` with
`VIRAL_POST_RATIO = 0.7`: the 70% share, rounded down.  (For every comment
count the code can draw, `int(n * 0.7)` on floats agrees with `7*n / 10`.) -/
def nViral (n_comments : Nat) : Nat := 7 * n_comments / 10

/-- `n_regular = n_comments - n_viral`. -/
def nRegular (n_comments : Nat) : Nat := n_comments - nViral n_comments

/-- `regular_posts = [p for p in posts if p not in viral_posts]`. -/
def regularPool {P : Type} [DecidableEq P] (posts viral_posts : List P) :
    List P :=
  posts.filter (fun p => p ∉ viral_posts)

/-- One user's random draws in the edge-creation loop: the drawn comment
count and the two `np.random.choice` results. -/
structure UserDraw (P : Type) where
  n_comments : Nat
  viral_sample : List P
  regular_sample : List P

variable {P : Type} [DecidableEq P]

/-- Exactly the constraints the two `np.random.choice` calls place on their
results: the viral sample has size `min(n_viral, len(viral_posts))` and is
drawn from the viral pool **with replacement** (`replace=True`: membership
only); the regular sample has size `min(n_regular, len(regular_posts))`
and is drawn from the regular pool **without replacement**
(`replace=False`: membership and no duplicates). -/
def ValidDraw (posts viral_posts : List P) (d : UserDraw P) : Prop :=
  d.viral_sample.length = min (nViral d.n_comments) viral_posts.length ∧
  (∀ p ∈ d.viral_sample, p ∈ viral_posts) ∧
  d.regular_sample.length =
    min (nRegular d.n_comments) (regularPool posts viral_posts).length ∧
  d.regular_sample.Nodup ∧
  (∀ p ∈ d.regular_sample, p ∈ regularPool posts viral_posts)

instance (posts viral_posts : List P) (d : UserDraw P) :
    Decidable (ValidDraw posts viral_posts d) := by
  unfold ValidDraw; infer_instance

/-- The set of posts the user ends up adjacent to: an edge is added for
each sampled post unless already present, so the adjacency is the set of
distinct sampled posts. -/
def userPostSet (d : UserDraw P) : Finset P :=
  (d.viral_sample ++ d.regular_sample).toFinset

/-- Number of distinct viral posts the user is connected to. -/
def distinctViral (viral_posts : List P) (d : UserDraw P) : Nat :=
  (userPostSet d |>.filter (fun p => p ∈ viral_posts)).card

/-- Number of distinct regular posts the user is connected to. -/
def distinctRegular (posts viral_posts : List P) (d : UserDraw P) : Nat :=
  (userPostSet d |>.filter (fun p => p ∈ regularPool posts viral_posts)).card

/-! ## Matrix projection (`src/network/bipartite.py` lines 101–207)

`project_to_users` builds a users × posts 0/1 incidence matrix with
`dtype=np.int8` and multiplies it by its transpose.  Both operands are
`int8`, so the product is computed in `int8`: every entry is accumulated
with wrap-around 8-bit signed addition.  `wrap8`/`add8` model that
arithmetic on `Int`. -/

/-- A bipartite user–post graph as the projector reads it: the (sorted,
distinct) user and post node lists and the user–post edge list. -/
structure BipGraph (U P : Type) where
  users : List U
  posts : List P
  edges : List (U × P)

variable {U : Type} [DecidableEq U]

/-- Entry of the 0/1 incidence matrix: 1 iff user `u` commented on post
`p`. -/
def incidence (B : BipGraph U P) (u : U) (p : P) : Int :=
  if (u, p) ∈ B.edges then 1 else 0

/-- Reduce an integer into the signed 8-bit range `[-128, 127]`
(two's-complement wrap-around). -/
def wrap8 (x : Int) : Int := (x + 128) % 256 - 128

/-- `int8` addition: add, then wrap. -/
def add8 (a b : Int) : Int := wrap8 (a + b)

/-- Entry `(u, v)` of `shared_matrix = incidence_matrix @
incidence_matrix.T`: the dot product of rows `u` and `v`, accumulated in
`int8` arithmetic. -/
def sharedEntry (B : BipGraph U P) (u v : U) : Int :=
  B.posts.foldl (fun acc p => add8 acc (incidence B u p * incidence B v p)) 0

/-- The exact (unwrapped) number of posts both `u` and `v` engaged with. -/
def sharedCount (B : BipGraph U P) (u v : U) : Nat :=
  B.posts.countP (fun p => decide ((u, p) ∈ B.edges ∧ (v, p) ∈ B.edges))

/-- The exact number of posts user `u` engaged with. -/
def userDegree (B : BipGraph U P) (u : U) : Nat :=
  B.posts.countP (fun p => decide ((u, p) ∈ B.edges))

/-- Entry of the k-filtered `adjacency` matrix: the shared count where it
meets the threshold (`adjacency[shared_matrix >= k] = shared_matrix[...]`),
0 elsewhere. -/
def adjacencyEntry (B : BipGraph U P) (k : Int) (u v : U) : Int :=
  if k ≤ sharedEntry B u v then sharedEntry B u v else 0

/-- All index pairs `i < j` of a node list (the strict upper triangle the
projector walks). -/
def offDiagPairs : List U → List (U × U)
  | [] => []
  | x :: xs => xs.map (fun y => (x, y)) ++ offDiagPairs xs

/-- Does the pair survive the filter, i.e. is an edge added for it
(`weight > 0` where `weight = adjacency[i, j]`)? -/
def survives (B : BipGraph U P) (k : Int) (uv : U × U) : Bool :=
  decide (0 < adjacencyEntry B k uv.1 uv.2)

/-- The edge list of `user_projection`: one edge per upper-triangle pair
whose filtered weight is positive. -/
def projectedEdges (B : BipGraph U P) (k : Int) : List (U × U) :=
  (offDiagPairs B.users).filter (survives B k)

/-! ## Network value laws (`src/analysis/network_value.py`)

The Python functions return `float(·)` of exactly computed integer values;
the integers themselves are modelled. -/

/-- `calculate_sarnoff_value(n)`: V = N. -/
def calculate_sarnoff_value (n : Nat) : Nat := n

/-- `calculate_metcalfe_value(n)`: V = N². -/
def calculate_metcalfe_value (n : Nat) : Nat := n ^ 2

/-- `calculate_reed_value(n, max_group_size=10)`:
`max_group_size = min(max_group_size, n)`, then
`sum(comb(n, k) for k in range(2, max_group_size + 1))`. -/
def calculate_reed_value (n : Nat) (max_group_size : Nat := 10) : Nat :=
  let m := min max_group_size n
  ((List.range' 2 (m + 1 - 2)).map n.choose).sum

/-- `compare_network_values(n)`: the triple (Sarnoff, Metcalfe, Reed). -/
def compare_network_values (n : Nat) : Nat × Nat × Nat :=
  (calculate_sarnoff_value n, calculate_metcalfe_value n,
    calculate_reed_value n)

/-! ## Lemmas about the cascade simulator -/

lemma one_le_neighborWeight (key_figures : List V) (n : V) :
    1 ≤ neighborWeight key_figures n := by
  unfold neighborWeight INFLUENCER_WEIGHT_MULTIPLIER
  split <;> omega

lemma total_influence_pos (key_figures neighbors : List V)
    (hne : neighbors ≠ []) : 0 < total_influence key_figures neighbors := by
  cases neighbors with
  | nil => exact absurd rfl hne
  | cons x xs =>
      have hx := one_le_neighborWeight key_figures x
      simp only [total_influence, List.map_cons, List.sum_cons]
      omega

lemma coopDecision_hub (G : DiGraph V) (cooperators key_figures : List V)
    (node : V) (hk : node ∈ key_figures) (hc : node ∈ cooperators) :
    coopDecision G cooperators key_figures node = true := by
  rw [coopDecision]
  split_ifs <;> simp_all

lemma hub_in_cooperatorsAt (G : DiGraph V) (key_figures early : List V)
    (h : V) (hk : h ∈ key_figures) (hn : h ∈ G.nodes) :
    ∀ t, h ∈ cooperatorsAt G key_figures early t := by
  intro t
  induction t with
  | zero => exact List.mem_append_left _ hk
  | succ t ih =>
      rw [cooperatorsAt, update_cooperators, List.mem_filter]
      exact ⟨hn, coopDecision_hub G _ key_figures h hk ih⟩

/-! ## Lemmas about `tippingFrom` -/

lemma tippingFrom_lower (j : Nat) (l : List ℚ) :
    tippingFrom j l = -1 ∨ (j : Int) + 1 ≤ tippingFrom j l := by
  induction l generalizing j with
  | nil => exact Or.inl rfl
  | cons r rest ih =>
      rw [tippingFrom]
      split_ifs with h
      · omega
      · rcases ih (j + 1) with h' | h'
        · exact Or.inl h'
        · right
          push_cast at h' ⊢
          omega

lemma tippingFrom_neg_iff (j : Nat) (l : List ℚ) :
    tippingFrom j l = -1 ↔ ∀ r ∈ l, r ≤ mkRat 1 2 := by
  induction l generalizing j with
  | nil => simp [tippingFrom]
  | cons r rest ih =>
      rw [tippingFrom]
      split_ifs with h
      · constructor
        · intro habs; omega
        · intro hall
          exact absurd h (not_lt.mpr (hall r (List.mem_cons_self r rest)))
      · rw [ih (j + 1)]
        constructor
        · intro hall r' hr'
          rcases List.mem_cons.mp hr' with rfl | hmem
          · exact not_lt.mp h
          · exact hall r' hmem
        · intro hall r' hr'
          exact hall r' (List.mem_cons_of_mem _ hr')

lemma tippingFrom_spec (l : List ℚ) :
    ∀ (j d : Nat), tippingFrom j l = ((j + d : Nat) : Int) + 1 →
      (∃ r, l[d]? = some r ∧ mkRat 1 2 < r) ∧
      ∀ i < d, ∀ r', l[i]? = some r' → r' ≤ mkRat 1 2 := by
  induction l with
  | nil =>
      intro j d hret
      rw [tippingFrom] at hret
      omega
  | cons r rest ih =>
      intro j d hret
      rw [tippingFrom] at hret
      split_ifs at hret with h
      · have hd : d = 0 := by push_cast at hret; omega
        subst hd
        exact ⟨⟨r, by simp, h⟩, fun i hi => absurd hi (Nat.not_lt_zero i)⟩
      · cases d with
        | zero =>
            rcases tippingFrom_lower (j + 1) rest with h' | h' <;>
              [skip; push_cast at h' hret] <;> omega
        | succ e =>
            have hret' : tippingFrom (j + 1) rest =
                (((j + 1) + e : Nat) : Int) + 1 := by
              push_cast at hret ⊢; omega
            obtain ⟨⟨r', hr', hgt⟩, hbelow⟩ := ih (j + 1) e hret'
            refine ⟨⟨r', by simpa using hr', hgt⟩, ?_⟩
            intro i hi r'' hr''
            cases i with
            | zero =>
                simp only [List.getElem?_cons_zero, Option.some_inj] at hr''
                subst hr''
                exact not_lt.mp h
            | succ m =>
                rw [List.getElem?_cons_succ] at hr''
                exact hbelow m (by omega) r'' hr''

lemma mkRat_half : mkRat 1 2 = (1 : ℚ)/2 := by
  rw [Rat.mkRat_eq_div]; norm_num

/-! ## Claims about the cascade simulator (C1, C2, C8) -/

/-- C1 (counterexample): the hub list `["b"]` together with the one-node
interaction graph on `"a"` satisfies the claim's premises (the hub is in
the hub-name list, the round number is ≥ 1), yet after one round the hub
`"b"` is *not* a cooperator: `_update_cooperators` only ever returns nodes
of the graph, so a hub outside the node set is dropped. -/
theorem hub_stickiness_cex :
    ("b" : String) ∈ (["b"] : List String) ∧ (1 : Nat) ≥ 1 ∧
      ("b" : String) ∉
        cooperatorsAt (V := String) ⟨["a"], []⟩ ["b"] [] 1 := by
  refine ⟨by decide, by decide, by decide⟩

/-- C1 (amended): hub stickiness holds for every hub that is a **node of
the interaction graph**: for every graph, hub list, early-adopter draw and
round `t ≥ 1`, such a hub is in `cooperators_t`. -/
theorem hub_stickiness (G : DiGraph V) (key_figures early : List V) (h : V)
    (hk : h ∈ key_figures) (hn : h ∈ G.nodes) (t : Nat) (_ht : 1 ≤ t) :
    h ∈ cooperatorsAt G key_figures early t :=
  hub_in_cooperatorsAt G key_figures early h hk hn t

/-- C1 (witness): instantiation of `hub_stickiness` on a concrete graph. -/
theorem hub_stickiness_witness :
    ("b" : String) ∈ cooperatorsAt (V := String) ⟨["b"], []⟩ ["b"] [] 1 :=
  hub_stickiness ⟨["b"], []⟩ ["b"] [] "b" (by decide) (by decide) 1
    (by decide)

/-- C2 (counterexample): on the graph with edges 1→0, 0→1, 2→0 and current
cooperators `{1}`, node 0's decision under the claim's rule (ratio over the
*union* of predecessors and successors, here `{1, 2}`, giving ratio 1/2)
is defect, but the code cooperates: the computed neighbor list is the
concatenation `[1, 2, 1]`, in which the mutual neighbor 1 counts twice,
giving ratio 2/3 > 0.5. -/
theorem cascade_rule_cex :
    (0 : Nat) ∈ update_cooperators ⟨[0, 1, 2], [(1, 0), (0, 1), (2, 0)]⟩
        [1] [] ∧
      neighborUnion (V := Nat) ⟨[0, 1, 2], [(1, 0), (0, 1), (2, 0)]⟩ 0 ≠
        [] ∧
      coopDecisionSpec (V := Nat) ⟨[0, 1, 2], [(1, 0), (0, 1), (2, 0)]⟩
          [1] [] 0 = false := by
  refine ⟨by decide, by decide, by decide⟩

/-- C2 (amended): the per-round rule, with the neighborhood taken as the
**concatenation** of the predecessor and successor lists (a mutual
neighbor counts twice in both influence sums).  For every node of the
graph with at least one neighbor, membership in the next cooperator set is
decided by the priority order (1) ratio > 0.5, (2) hub, (3) ratio > 0.4
and previously cooperating, (4) defect — where the ratio is the
influence-weighted cooperation fraction over that concatenation; the next
set is computed only from the current one (synchronous update). -/
theorem cascade_update_rule (G : DiGraph V)
    (cooperators key_figures : List V) (node : V)
    (hnode : node ∈ G.nodes) (hne : neighborList G node ≠ []) :
    cooperation_ratio cooperators key_figures (neighborList G node) =
        (influence_weight cooperators key_figures (neighborList G node) : ℚ) /
          (total_influence key_figures (neighborList G node) : ℚ) ∧
      (node ∈ update_cooperators G cooperators key_figures ↔
        COOPERATION_THRESHOLD <
            cooperation_ratio cooperators key_figures (neighborList G node) ∨
          node ∈ key_figures ∨
          (STICKY_THRESHOLD <
              cooperation_ratio cooperators key_figures (neighborList G node) ∧
            node ∈ cooperators)) := by
  have htot := total_influence_pos key_figures (neighborList G node) hne
  refine ⟨cooperation_ratio_eq_div cooperators key_figures _ htot, ?_⟩
  rw [update_cooperators, List.mem_filter]
  have hE : (neighborList G node).isEmpty = false := by
    cases hnl : neighborList G node with
    | nil => exact absurd hnl hne
    | cons a l => rfl
  rw [coopDecision, hE]
  simp only [Bool.false_eq_true, if_false]
  constructor
  · rintro ⟨-, hdec⟩
    split_ifs at hdec with h1 h2 h3 <;> tauto
  · intro hdisj
    refine ⟨hnode, ?_⟩
    split_ifs with h1 h2 h3 <;> tauto

/-- C2 (witness): instantiation of `cascade_update_rule` on the
counterexample graph at node 0. -/
theorem cascade_update_rule_witness :
    cooperation_ratio [1] []
        (neighborList (V := Nat) ⟨[0, 1, 2], [(1, 0), (0, 1), (2, 0)]⟩ 0) =
      (influence_weight [1] []
          (neighborList (V := Nat) ⟨[0, 1, 2], [(1, 0), (0, 1), (2, 0)]⟩ 0) : ℚ) /
        (total_influence []
          (neighborList (V := Nat) ⟨[0, 1, 2], [(1, 0), (0, 1), (2, 0)]⟩ 0) : ℚ) ∧
    ((0 : Nat) ∈ update_cooperators ⟨[0, 1, 2], [(1, 0), (0, 1), (2, 0)]⟩
        [1] [] ↔
      COOPERATION_THRESHOLD < cooperation_ratio [1] []
          (neighborList (V := Nat) ⟨[0, 1, 2], [(1, 0), (0, 1), (2, 0)]⟩ 0) ∨
        (0 : Nat) ∈ ([] : List Nat) ∨
        (STICKY_THRESHOLD < cooperation_ratio [1] []
            (neighborList (V := Nat) ⟨[0, 1, 2], [(1, 0), (0, 1), (2, 0)]⟩ 0) ∧
          (0 : Nat) ∈ [1])) :=
  cascade_update_rule ⟨[0, 1, 2], [(1, 0), (0, 1), (2, 0)]⟩ [1] [] 0
    (by decide) (by decide)

/-- C8 (confirmed): if `identify_tipping_point` returns `d + 1` (a day
`≥ 1`), the rate at 0-based index `d` strictly exceeds 0.5 and every
earlier rate is ≤ 0.5; and it returns `-1` exactly when no rate strictly
exceeds 0.5. -/
theorem tipping_point_consistency (hist : List ℚ) :
    (∀ d : Nat, identify_tipping_point hist = (d : Int) + 1 →
      (∃ r, hist[d]? = some r ∧ (1 : ℚ)/2 < r) ∧
      ∀ i < d, ∀ r', hist[i]? = some r' → r' ≤ (1 : ℚ)/2) ∧
    (identify_tipping_point hist = -1 ↔ ∀ r ∈ hist, r ≤ (1 : ℚ)/2) := by
  constructor
  · intro d hret
    have hret' : tippingFrom 0 hist = ((0 + d : Nat) : Int) + 1 := by
      rw [identify_tipping_point] at hret
      push_cast
      omega
    obtain ⟨h1, h2⟩ := tippingFrom_spec hist 0 d hret'
    rw [mkRat_half] at h1 h2
    exact ⟨h1, h2⟩
  · rw [identify_tipping_point, tippingFrom_neg_iff, mkRat_half]

/-- C8 (witness): instantiation on the history `[1/4, 3/4]`, whose tipping
point is day 2. -/
theorem tipping_point_consistency_witness :
    ∃ r, ([mkRat 1 4, mkRat 3 4] : List ℚ)[1]? = some r ∧ (1 : ℚ)/2 < r :=
  (((tipping_point_consistency [mkRat 1 4, mkRat 3 4]).1 1 (by decide))).1

/-! ## Lemmas about the `int8` projection -/

lemma wrap8_wrap8_add (x y : Int) : wrap8 (wrap8 x + y) = wrap8 (x + y) := by
  unfold wrap8
  omega

lemma foldl_add8_eq {α : Type} (g : α → Int) (l : List α) (a : Int) :
    l.foldl (fun acc p => add8 acc (g p)) (wrap8 a) =
      wrap8 (a + (l.map g).sum) := by
  induction l generalizing a with
  | nil => simp
  | cons x xs ih =>
      rw [List.foldl_cons, show add8 (wrap8 a) (g x) = wrap8 (a + g x) from
        wrap8_wrap8_add a (g x), ih (a + g x), List.map_cons, List.sum_cons,
        add_assoc]

lemma sum_ite_eq_countP {α : Type} (l : List α) (q : α → Prop)
    [DecidablePred q] :
    ((l.map (fun a => if q a then (1 : Int) else 0)).sum) =
      (l.countP (fun a => decide (q a)) : Int) := by
  induction l with
  | nil => simp
  | cons x xs ih =>
      simp only [List.map_cons, List.sum_cons, List.countP_cons, ih]
      by_cases hx : q x
      · simp [hx]
        omega
      · simp [hx]

lemma incidence_mul (B : BipGraph U P) (u v : U) (p : P) :
    incidence B u p * incidence B v p =
      if ((u, p) ∈ B.edges ∧ (v, p) ∈ B.edges) then (1 : Int) else 0 := by
  unfold incidence
  split_ifs <;> simp_all

lemma sharedEntry_eq (B : BipGraph U P) (u v : U) :
    sharedEntry B u v = wrap8 (sharedCount B u v) := by
  have h0 : (0 : Int) = wrap8 0 := by decide
  rw [sharedEntry, h0, foldl_add8_eq, zero_add]
  congr 1
  rw [show (fun p => incidence B u p * incidence B v p) =
      (fun p => if ((u, p) ∈ B.edges ∧ (v, p) ∈ B.edges) then (1 : Int)
        else 0) from funext (incidence_mul B u v)]
  exact sum_ite_eq_countP B.posts _

lemma sharedCount_self (B : BipGraph U P) (u : U) :
    sharedCount B u u = userDegree B u := by
  unfold sharedCount userDegree
  congr 1
  funext p
  exact decide_eq_decide.mpr ⟨fun h => h.1, fun h => ⟨h, h⟩⟩

lemma filter_length_mono {α : Type} (l : List α) (p q : α → Bool)
    (h : ∀ a, p a = true → q a = true) :
    (l.filter p).length ≤ (l.filter q).length := by
  induction l with
  | nil => simp
  | cons x xs ih =>
      simp only [List.filter_cons]
      cases hp : p x with
      | true =>
          rw [h x hp]
          simpa using ih
      | false =>
          cases hq : q x <;> simp <;> omega

lemma survives_mono (B : BipGraph U P) {k1 k2 : Int} (hk : k1 ≤ k2)
    (uv : U × U) (h : survives B k2 uv = true) :
    survives B k1 uv = true := by
  unfold survives adjacencyEntry at h ⊢
  simp only [decide_eq_true_eq] at h ⊢
  split_ifs at h ⊢ <;> omega

/-! ## The example bipartite graphs used in concrete statements -/

/-- A user engaged with 128 posts: the smallest shared-post count whose
`int8` representation wraps to a negative value. -/
def B128 : BipGraph Nat Nat :=
  ⟨[0], List.range 128, (List.range 128).map (fun p => (0, p))⟩

/-- Two users and two posts; user 0 engaged with posts 2 and 3, user 1
with post 3 only, so they share exactly one post. -/
def Bex : BipGraph Nat Nat := ⟨[0, 1], [2, 3], [(0, 2), (0, 3), (1, 3)]⟩

/-! ## Claims about the projection (C4, C6, C7, C9) -/

/-- C4 (counterexample): calling the projection with `k_threshold = 0 < 1`
does not fail — `project_to_users` has no validation — and silently
produces a projected graph: on `Bex` it returns the same single edge as
`k_threshold = 1`. -/
theorem k_threshold_cex :
    projectedEdges Bex 0 = [(0, 1)] ∧ projectedEdges Bex (-1) = [(0, 1)] := by
  refine ⟨by decide, by decide⟩

/-- C4 (amended): `project_to_users` performs no validation of
`k_threshold`: for every bipartite graph and every `k_threshold < 1` it
computes a projected graph, whose edge set and weights coincide with those
produced at `k_threshold = 1` (an edge needs a positive entry, and a
positive entry is automatically `≥ k` for `k < 1`). -/
theorem k_threshold_no_validation (B : BipGraph U P) (k : Int)
    (hk : k < 1) :
    projectedEdges B k = projectedEdges B 1 ∧
      ∀ uv ∈ projectedEdges B k,
        adjacencyEntry B k uv.1 uv.2 = adjacencyEntry B 1 uv.1 uv.2 := by
  have hsurv : ∀ uv ∈ offDiagPairs B.users,
      survives B k uv = survives B 1 uv := by
    intro uv _
    unfold survives adjacencyEntry
    rw [decide_eq_decide]
    split_ifs <;> omega
  refine ⟨List.filter_congr hsurv, ?_⟩
  intro uv hmem
  have hpos := (List.mem_filter.mp hmem).2
  unfold survives at hpos
  rw [decide_eq_true_eq] at hpos
  unfold adjacencyEntry at hpos ⊢
  split_ifs at hpos ⊢ <;> omega

/-- C4 (witness): instantiation of `k_threshold_no_validation` at
`k_threshold = 0` on `Bex`. -/
theorem k_threshold_no_validation_witness :
    projectedEdges Bex 0 = projectedEdges Bex 1 :=
  (k_threshold_no_validation Bex 0 (by decide)).1

set_option maxRecDepth 100000 in
/-- C6 (counterexample): `SharedContentMatrix` is computed in `int8`
(`dtype=np.int8` incidence matrix), so for a user engaged with 128 posts
the diagonal entry is −128, not 128. -/
theorem diagonal_meaning_cex :
    userDegree B128 0 = 128 ∧ sharedEntry B128 0 0 = -128 ∧
      sharedEntry B128 0 0 ≠ (userDegree B128 0 : Int) := by
  refine ⟨by decide, by decide, by decide⟩

/-- C6 (amended): the diagonal entry equals the number of posts the user
engaged with whenever that number is at most 127 (the largest count an
`int8` entry represents exactly). -/
theorem diagonal_meaning (B : BipGraph U P) (u : U)
    (hdeg : userDegree B u ≤ 127) :
    sharedEntry B u u = (userDegree B u : Int) := by
  rw [sharedEntry_eq, sharedCount_self]
  unfold wrap8
  omega

/-- C6 (witness): instantiation of `diagonal_meaning` on `Bex`. -/
theorem diagonal_meaning_witness :
    sharedEntry Bex 0 0 = (userDegree Bex 0 : Int) :=
  diagonal_meaning Bex 0 (by decide)

set_option maxRecDepth 100000 in
/-- C7 (confirmed): every entry of the shared matrix is the true shared
count reduced into the signed 8-bit range; it equals the true count
exactly when the count is ≤ 127; and (on `B128`) the wrap can produce a
negative entry. -/
theorem int8_shared_matrix :
    (∀ (B : BipGraph U P) (u v : U),
      sharedEntry B u v = wrap8 (sharedCount B u v) ∧
        (sharedEntry B u v = (sharedCount B u v : Int) ↔
          sharedCount B u v ≤ 127)) ∧
      sharedEntry B128 0 0 = -128 := by
  refine ⟨fun B u v => ⟨sharedEntry_eq B u v, ?_⟩, by decide⟩
  rw [sharedEntry_eq]
  unfold wrap8
  omega

/-- C9 (confirmed): raising the threshold never increases the number of
projected edges. -/
theorem threshold_monotonicity (B : BipGraph U P) (k1 k2 : Int)
    (hk : k1 ≤ k2) :
    (projectedEdges B k2).length ≤ (projectedEdges B k1).length :=
  filter_length_mono (offDiagPairs B.users) (survives B k2) (survives B k1)
    (survives_mono B hk)

/-- C9 (witness): instantiation of `threshold_monotonicity` on `Bex`. -/
theorem threshold_monotonicity_witness :
    (projectedEdges Bex 2).length ≤ (projectedEdges Bex 1).length :=
  threshold_monotonicity Bex 1 2 (by decide)

/-! ## Claim about the bipartite sampling (C5) -/

/-- C5 (counterexample): the viral draw uses `replace=True`, so a draw
satisfying every constraint the code imposes can repeat a viral post: with
viral pool `[0, 1]` and 3 drawn comments (2 viral targets), the sample
`[0, 0]` is valid, yet the user ends up connected to 1 distinct viral
post, not `min(2, 2) = 2`. -/
theorem bipartite_sampling_cex :
    ValidDraw ([0, 1] : List Nat) [0, 1] ⟨3, [0, 0], []⟩ ∧
      distinctViral ([0, 1] : List Nat) ⟨3, [0, 0], []⟩ = 1 ∧
      min (nViral 3) ([0, 1] : List Nat).length = 2 := by
  refine ⟨by decide, by decide, by decide⟩

/-- C5 (amended): within the **regular** pool the sample is drawn without
replacement and the number of distinct regular posts the user connects to
equals `min(requested, pool size)`; the **viral** pool is sampled *with*
replacement (`replace=True`), so there the distinct-post count is only
bounded above by `min(requested, pool size)`. -/
theorem bipartite_sampling (posts viral_posts : List P) (d : UserDraw P)
    (hd : ValidDraw posts viral_posts d) :
    distinctRegular posts viral_posts d =
        min (nRegular d.n_comments) (regularPool posts viral_posts).length ∧
      distinctViral viral_posts d ≤
        min (nViral d.n_comments) viral_posts.length := by
  obtain ⟨hvlen, hvmem, hrlen, hrnodup, hrmem⟩ := hd
  have hreg_not_viral : ∀ p ∈ regularPool posts viral_posts,
      p ∉ viral_posts := by
    intro p hp
    simp only [regularPool, List.mem_filter, decide_eq_true_eq] at hp
    exact hp.2
  have hset : userPostSet d =
      d.viral_sample.toFinset ∪ d.regular_sample.toFinset :=
    List.toFinset_append
  constructor
  · rw [distinctRegular, hset, Finset.filter_union]
    have h1 : d.viral_sample.toFinset.filter
        (fun p => p ∈ regularPool posts viral_posts) = ∅ := by
      rw [Finset.filter_eq_empty_iff]
      intro p hp hmem
      rw [List.mem_toFinset] at hp
      exact hreg_not_viral p hmem (hvmem p hp)
    have h2 : d.regular_sample.toFinset.filter
        (fun p => p ∈ regularPool posts viral_posts) =
        d.regular_sample.toFinset := by
      rw [Finset.filter_eq_self]
      intro p hp
      rw [List.mem_toFinset] at hp
      exact hrmem p hp
    rw [h1, h2, Finset.empty_union,
      List.toFinset_card_of_nodup hrnodup, hrlen]
  · rw [distinctViral, hset, Finset.filter_union]
    have h2 : d.regular_sample.toFinset.filter
        (fun p => p ∈ viral_posts) = ∅ := by
      rw [Finset.filter_eq_empty_iff]
      intro p hp hmem
      rw [List.mem_toFinset] at hp
      exact hreg_not_viral p (hrmem p hp) hmem
    rw [h2, Finset.union_empty, ← hvlen]
    calc (d.viral_sample.toFinset.filter (fun p => p ∈ viral_posts)).card
        ≤ d.viral_sample.toFinset.card :=
          Finset.card_le_card (Finset.filter_subset _ _)
      _ ≤ d.viral_sample.length := List.toFinset_card_le _

/-- C5 (witness): instantiation of `bipartite_sampling` on a valid draw
over pools `viral = [0]`, `regular = [1]`. -/
theorem bipartite_sampling_witness :
    distinctRegular ([0, 1] : List Nat) [0] ⟨2, [0], [1]⟩ =
        min (nRegular 2) (regularPool ([0, 1] : List Nat) [0]).length ∧
      distinctViral ([0] : List Nat) ⟨2, [0], [1]⟩ ≤
        min (nViral 2) ([0] : List Nat).length :=
  bipartite_sampling [0, 1] [0] ⟨2, [0], [1]⟩ (by decide)

/-! ## Lemmas about the value laws -/

lemma range'_map_sum (f : Nat → Nat) :
    ∀ (len a : Nat),
      ((List.range' a len).map f).sum = ∑ i ∈ Finset.range len, f (a + i) := by
  intro len
  induction len with
  | zero => intro a; simp
  | succ m ih =>
      intro a
      rw [List.range'_succ, List.map_cons, List.sum_cons, ih (a + 1),
        Finset.sum_range_succ']
      have harg : ∀ i, a + 1 + i = a + (i + 1) := by omega
      simp only [harg, Nat.add_zero]
      exact Nat.add_comm _ _

lemma calculate_reed_value_eq (n : Nat) :
    calculate_reed_value n = ∑ k ∈ Finset.Icc 2 (min 10 n), n.choose k := by
  have h1 : calculate_reed_value n =
      ((List.range' 2 (min 10 n + 1 - 2)).map n.choose).sum := rfl
  rw [h1, range'_map_sum, ← Nat.Ico_succ_right, Finset.sum_Ico_eq_sum_range]

lemma choose_two_mul (m : Nat) : 2 * (m + 1).choose 2 = (m + 1) * m := by
  induction m with
  | zero => decide
  | succ k ih =>
      rw [show k + 1 + 1 = (k + 1) + 1 from rfl,
        Nat.choose_succ_succ (k + 1) 1, Nat.choose_one_right, Nat.mul_add,
        ih]
      ring

lemma choose_three_mul (m : Nat) :
    6 * (m + 2).choose 3 = (m + 2) * (m + 1) * m := by
  induction m with
  | zero => decide
  | succ k ih =>
      rw [show k + 1 + 2 = (k + 2) + 1 from rfl,
        Nat.choose_succ_succ (k + 2) 2, Nat.mul_add, ih]
      have h2 := choose_two_mul (k + 1)
      nlinarith

lemma metcalfe_lt_reed {n : Nat} (hn : 5 ≤ n) :
    n ^ 2 < calculate_reed_value n := by
  rcases Nat.lt_or_ge n 7 with h7 | h7
  · interval_cases n <;> decide
  · obtain ⟨m, rfl⟩ : ∃ m, n = m + 7 := ⟨n - 7, by omega⟩
    have hsub : ({2, 3} : Finset ℕ) ⊆ Finset.Icc 2 (min 10 (m + 7)) := by
      intro x hx
      rw [Finset.mem_insert, Finset.mem_singleton] at hx
      rw [Finset.mem_Icc]
      rcases hx with rfl | rfl <;> omega
    have hle : (m + 7).choose 2 + (m + 7).choose 3 ≤
        calculate_reed_value (m + 7) := by
      rw [calculate_reed_value_eq]
      calc (m + 7).choose 2 + (m + 7).choose 3
          = ∑ k ∈ ({2, 3} : Finset ℕ), (m + 7).choose k :=
            (Finset.sum_pair (by decide)).symm
        _ ≤ _ := Finset.sum_le_sum_of_subset hsub
    have h6 : 6 * (m + 8).choose 3 = (m + 8) * (m + 7) * (m + 6) := by
      simpa using choose_three_mul (m + 6)
    have hlt : 6 * (m + 7) ^ 2 < 6 * (m + 8).choose 3 := by
      rw [h6]; nlinarith
    calc (m + 7) ^ 2 < (m + 8).choose 3 := Nat.lt_of_mul_lt_mul_left hlt
      _ = (m + 7).choose 2 + (m + 7).choose 3 := Nat.choose_succ_succ (m + 7) 2
      _ ≤ _ := hle

/-! ## Claims about the value laws (C3, C10) -/

/-- C3 (counterexample): at `n = 3` the claimed ordering fails:
Metcalfe's value is 9 while the truncated Reed value is only
`C(3,2) + C(3,3) = 4`. -/
theorem value_law_ordering_cex :
    ¬ ((compare_network_values 3).1 < (compare_network_values 3).2.1 ∧
        (compare_network_values 3).2.1 < (compare_network_values 3).2.2) := by
  decide

/-- C3 (amended): for every `n ≥ 5` (not `n ≥ 3`: the ordering fails at
`n = 3` and `n = 4`), Sarnoff < Metcalfe < Reed among the three values
returned by `compare_network_values`. -/
theorem value_law_ordering (n : Nat) (hn : 5 ≤ n) :
    (compare_network_values n).1 < (compare_network_values n).2.1 ∧
      (compare_network_values n).2.1 < (compare_network_values n).2.2 := by
  constructor
  · show calculate_sarnoff_value n < calculate_metcalfe_value n
    have h1 : calculate_sarnoff_value n = n := rfl
    have h2 : calculate_metcalfe_value n = n ^ 2 := rfl
    rw [h1, h2]
    nlinarith
  · exact metcalfe_lt_reed hn

/-- C3 (witness): instantiation of `value_law_ordering` at `n = 5`. -/
theorem value_law_ordering_witness :
    (compare_network_values 5).1 < (compare_network_values 5).2.1 ∧
      (compare_network_values 5).2.1 < (compare_network_values 5).2.2 :=
  value_law_ordering 5 (by decide)

/-- C10 (confirmed): the Reed value is exactly the truncated sum
`Σ_{k=2}^{min(10,n)} C(n,k)` — 0 for `n < 2` — and differs from the
untruncated `2^n − n − 1` (e.g. at `n = 11`). -/
theorem reed_truncation :
    (∀ n, calculate_reed_value n =
        ∑ k ∈ Finset.Icc 2 (min 10 n), n.choose k) ∧
      (∀ n < 2, calculate_reed_value n = 0) ∧
      calculate_reed_value 11 ≠ 2 ^ 11 - 11 - 1 := by
  refine ⟨calculate_reed_value_eq, ?_, by decide⟩
  intro n hn
  interval_cases n <;> decide

/-- C10 (witness): instantiation of `reed_truncation` at `n = 1`. -/
theorem reed_truncation_witness : calculate_reed_value 1 = 0 :=
  reed_truncation.2.1 1 (by decide)

end GameStop

